import Mathlib

/-!
Shallow embedding of the task-list application in
`src/packages/testing-stand-147/packages/testing-stand-147/src/app/page.tsx`
(the `TodoApp` component).  The in-memory task store, its mutation
operations, the derived view pipeline (filter/sort/stats), the due-date
predicates and the localStorage load/save paths are translated into pure
Lean functions; the single clock reading `Date.now()` / `new Date()` taken
during an add is passed in as an explicit `now` argument, and the runtime's
time-zone offset (minutes east of UTC, as the negated `getTimezoneOffset`)
is an explicit parameter of the date predicates.
-/

/-- Priority union type `low | medium | high` from the source. -/
inductive Priority where
  | low
  | medium
  | high
deriving DecidableEq, Repr, BEq

/-- Category union type `personal | work | shopping | health | other`. -/
inductive Category where
  | personal
  | work
  | shopping
  | health
  | other
deriving DecidableEq, Repr, BEq

/-- String literal of a `Priority` value, as it appears in the JS runtime. -/
def Priority.jsName : Priority → String
  | .low => "low"
  | .medium => "medium"
  | .high => "high"

/-- String literal of a `Category` value, as it appears in the JS runtime. -/
def Category.jsName : Category → String
  | .personal => "personal"
  | .work => "work"
  | .shopping => "shopping"
  | .health => "health"
  | .other => "other"

/-- The `Todo` interface of the source.  `id` and `createdAt` are the
millisecond clock readings `Date.now()` / `new Date()` taken at creation
(integer-valued JS numbers, here `Nat`); `dueDate` is the
`string | null` field holding a `YYYY-MM-DD` value from the date input. -/
structure Todo where
  id : Nat
  text : String
  completed : Bool
  priority : Priority
  category : Category
  dueDate : Option String
  createdAt : Nat
  notes : String
deriving DecidableEq, Repr

/-- Whitespace class of ECMAScript `String.prototype.trim`
(WhiteSpace and LineTerminator code points). -/
def jsWhitespace (c : Char) : Bool :=
  c.toNat == 9 || c.toNat == 10 || c.toNat == 11 || c.toNat == 12 ||
  c.toNat == 13 || c.toNat == 32 || c.toNat == 160 || c.toNat == 0x1680 ||
  (0x2000 ≤ c.toNat && c.toNat ≤ 0x200A) || c.toNat == 0x2028 ||
  c.toNat == 0x2029 || c.toNat == 0x202F || c.toNat == 0x205F ||
  c.toNat == 0x3000 || c.toNat == 0xFEFF

/-- JS `s.trim()`: strip leading and trailing JS whitespace. -/
def jsTrim (s : String) : String :=
  ⟨((s.data.dropWhile jsWhitespace).reverse.dropWhile jsWhitespace).reverse⟩

/-- Arguments of one `addTodo` invocation: the component state fields the
handler closes over (`inputValue`, `priority`, `category`, `dueDate`,
`notes`).  The `dueDate` state field is a string; the empty string means
no due date was picked. -/
structure AddInput where
  inputValue : String
  priority : Priority
  category : Category
  dueDate : String
  notes : String
deriving DecidableEq, Repr

/-- The new task record built by `addTodo` (source lines 585-609): id from
`Date.now()`, the untrimmed input text, `completed: false`,
`dueDate: dueDate || null` (empty string is falsy, hence `none`), and
`createdAt` from `new Date()`; the two clock reads of the same handler run
are modelled as the single value `now`. -/
def mkTodo (now : Nat) (inp : AddInput) : Todo :=
  { id := now
    text := inp.inputValue
    completed := false
    priority := inp.priority
    category := inp.category
    dueDate := if inp.dueDate = "" then none else some inp.dueDate
    createdAt := now
    notes := inp.notes }

/-- The `addTodo` handler: no-op when `inputValue.trim() === ''`, otherwise
prepend the new record (`setTodos(prev => [newTodo, ...prev])`). -/
def addTodo (now : Nat) (inp : AddInput) (todos : List Todo) : List Todo :=
  if jsTrim inp.inputValue = "" then todos else mkTodo now inp :: todos

/-- The `toggleTodo` handler: map over the collection flipping `completed`
on every record whose `id` matches. -/
def toggleTodo (id : Nat) (todos : List Todo) : List Todo :=
  todos.map fun todo =>
    if todo.id = id then { todo with completed := !todo.completed } else todo

/-- The `deleteTodo` handler body: `todos.filter((todo) => todo.id !== id)`. -/
def deleteTodo (id : Nat) (todos : List Todo) : List Todo :=
  todos.filter fun todo => todo.id ≠ id

/-- The `clearCompleted` handler: `todos.filter((todo) => !todo.completed)`. -/
def clearCompleted (todos : List Todo) : List Todo :=
  todos.filter fun todo => !todo.completed

/-- A sequence of add operations applied in order to a store, each with its
own clock reading. -/
def applyAdds (events : List (Nat × AddInput)) (todos : List Todo) : List Todo :=
  events.foldl (fun acc e => addTodo e.1 e.2 acc) todos

/-- The `stats` object (source lines 693-699), computed from the full,
unfiltered collection. -/
structure Stats where
  total : Nat
  active : Nat
  completed : Nat
  highPriority : Nat
deriving DecidableEq, Repr

/-- Aggregate counters: `todos.length` and three `filter(...).length` counts. -/
def statsOf (todos : List Todo) : Stats :=
  { total := todos.length
    active := (todos.filter fun t => !t.completed).length
    completed := (todos.filter fun t => t.completed).length
    highPriority :=
      (todos.filter fun t => t.priority == Priority.high && !t.completed).length }

/-- JS `Math.round` on the exact rational value: floor of `x + 1/2`
(halves round toward positive infinity). -/
def mathRound (q : ℚ) : ℤ := ⌊q + 1 / 2⌋

/-- Source line 701:
`stats.total > 0 ? Math.round((stats.completed / stats.total) * 100) : 0`,
with the float arithmetic modelled as exact rational arithmetic. -/
def progressPercent (todos : List Todo) : ℤ :=
  let s := statsOf todos
  if 0 < s.total then mathRound ((s.completed : ℚ) / (s.total : ℚ) * 100) else 0

/-- Days since the Unix epoch of a proleptic-Gregorian civil date
(Howard Hinnant's `days_from_civil` algorithm, as used by ECMAScript's
`MakeDay`). -/
def daysFromCivil (y : Int) (m d : Nat) : Int :=
  let y2 : Int := if m ≤ 2 then y - 1 else y
  let era : Int := y2.fdiv 400
  let yoe : Nat := (y2 - era * 400).toNat
  let mp : Nat := if 2 < m then m - 3 else m + 9
  let doy : Nat := (153 * mp + 2) / 5 + d - 1
  let doe : Nat := yoe * 365 + yoe / 4 - yoe / 100 + doy
  era * 146097 + (doe : Int) - 719468

/-- Numeric value of a decimal digit character. -/
def digitVal (c : Char) : Nat := c.toNat - 48

/-- Decimal value of a digit list, most significant first. -/
def natOfDigits (cs : List Char) : Nat := cs.foldl (fun a c => 10 * a + digitVal c) 0

/-- Length in days of a month of the proleptic-Gregorian calendar. -/
def daysInMonth (y : Int) (m : Nat) : Nat :=
  if m = 2 then (if y % 4 = 0 ∧ (y % 100 ≠ 0 ∨ y % 400 = 0) then 29 else 28)
  else if m = 4 ∨ m = 6 ∨ m = 9 ∨ m = 11 then 30 else 31

/-- JS `new Date(s).getTime()` for the date-only strings `YYYY-MM-DD`
produced by the date input (ECMA-262 Date Time String Format; date-only
forms denote UTC midnight).  `none` models an Invalid Date, whose time
value is `NaN`. -/
def dueMs (s : String) : Option Int :=
  match s.data with
  | [y1, y2, y3, y4, h1, m1, m2, h2, d1, d2] =>
    if h1 = '-' ∧ h2 = '-' ∧ ([y1, y2, y3, y4, m1, m2, d1, d2].all Char.isDigit) then
      let y : Nat := natOfDigits [y1, y2, y3, y4]
      let m : Nat := natOfDigits [m1, m2]
      let d : Nat := natOfDigits [d1, d2]
      if 1 ≤ m ∧ m ≤ 12 ∧ 1 ≤ d ∧ d ≤ daysInMonth y m then
        some (daysFromCivil y m d * 86400000)
      else none
    else none
  | _ => none

/-- Truthiness test `!a.dueDate` applied to the `string | null` field:
`null` and the empty string are falsy. -/
def dueFalsy : Option String → Bool
  | none => true
  | some s => s = ""

/-- Due-date branch of the sort comparator (source lines 682-685):
`if (!a.dueDate) return 1; if (!b.dueDate) return -1;` then the difference
of the two `getTime()` values.  A `NaN` difference (an invalid date on
either side) is coerced to `+0` by the `Array.prototype.sort` machinery. -/
def cmpDueDate (a b : Todo) : Int :=
  if dueFalsy a.dueDate then 1
  else if dueFalsy b.dueDate then -1
  else
    match a.dueDate.bind dueMs, b.dueDate.bind dueMs with
    | some tx, some ty => tx - ty
    | _, _ => 0

/-- Stable insertion of `a` before the first element it compares strictly
or equally below; together with `sortByCmp` this models
`Array.prototype.sort`, which is required to be stable. -/
def insertCmp (cmp : Todo → Todo → Int) (a : Todo) : List Todo → List Todo
  | [] => [a]
  | b :: bs => if cmp a b ≤ 0 then a :: b :: bs else b :: insertCmp cmp a bs

/-- Stable comparator sort modelling `Array.prototype.sort(comparefn)`. -/
def sortByCmp (cmp : Todo → Todo → Int) : List Todo → List Todo
  | [] => []
  | x :: xs => insertCmp cmp x (sortByCmp cmp xs)

/-- View-pipeline sort for `sortBy === 'dueDate'`. -/
def dueDateSort (todos : List Todo) : List Todo := sortByCmp cmpDueDate todos

/-- Local calendar-day number of an instant: days since epoch of the
time-zone-adjusted timestamp, where `tz` is the offset in minutes east of
UTC.  Two instants produce equal `toDateString()` output iff they have
equal local day numbers. -/
def localDay (tz : Int) (t : Int) : Int := (t + tz * 60000).fdiv 86400000

/-- Source lines 703-706: `isOverdue` holds when the due date's UTC-midnight
instant is strictly before the current instant (`new Date(dueDate) < new
Date()`) and the two instants print different `toDateString()` values
(different local calendar days).  An absent (or falsy) due date and an
invalid date (whose `NaN` comparisons are all false) give `false`. -/
def isOverdue (tz : Int) (nowMs : Int) (dueDate : Option String) : Bool :=
  match dueDate with
  | none => false
  | some s =>
    match dueMs s with
    | none => false
    | some dm => decide (dm < nowMs) && decide (localDay tz dm ≠ localDay tz nowMs)

/-- Day-granularity overdue predicate as the specification words it: the
due date is present and its calendar day is strictly before the current
local calendar day, independent of the time of day. -/
def specOverdue (tz : Int) (nowMs : Int) (dueDate : Option String) : Bool :=
  match dueDate with
  | none => false
  | some s =>
    match dueMs s with
    | none => false
    | some dm => decide (dm.fdiv 86400000 < localDay tz nowMs)

/-- Dynamic JS values as far as this application stores them: JSON values
plus `Date` objects (held in `createdAt`), a `Date` carrying its
millisecond time value.  Numbers are integer-valued (the only numbers the
app persists are ids). -/
inductive JsVal where
  | null
  | bool (b : Bool)
  | num (n : Int)
  | str (s : String)
  | date (ms : Int)
  | arr (elems : List JsVal)
  | obj (mems : List (String × JsVal))

/-- Civil date from days since the Unix epoch (Hinnant's `civil_from_days`). -/
def civilFromDays (z0 : Int) : Int × Nat × Nat :=
  let z := z0 + 719468
  let era : Int := z.fdiv 146097
  let doe : Nat := (z - era * 146097).toNat
  let yoe : Nat := (doe - doe / 1460 + doe / 36524 - doe / 146096) / 365
  let doy : Nat := doe - (365 * yoe + yoe / 4 - yoe / 100)
  let mp : Nat := (5 * doy + 2) / 153
  let d : Nat := doy - (153 * mp + 2) / 5 + 1
  let m : Nat := if mp < 10 then mp + 3 else mp - 9
  (era * 400 + yoe + (if m ≤ 2 then 1 else 0), m, d)

/-- Decimal digit characters of a natural number, most significant first. -/
def natDigits (n : Nat) : List Char :=
  if n < 10 then [Char.ofNat (48 + n)]
  else natDigits (n / 10) ++ [Char.ofNat (48 + n % 10)]
termination_by n
decreasing_by exact Nat.div_lt_self (by omega) (by omega)

/-- Left-pad a decimal rendering with zeros to width `w`. -/
def padNat (w n : Nat) : List Char :=
  List.replicate (w - (natDigits n).length) '0' ++ natDigits n

/-- JS `Date.prototype.toJSON` / `toISOString` of a time value:
`YYYY-MM-DDTHH:mm:ss.sssZ` (years 0000-9999; the expanded-year forms are
outside the modelled range). -/
def isoOfMs (t : Int) : String :=
  let day : Int := t.fdiv 86400000
  let msod : Nat := (t - day * 86400000).toNat
  let c := civilFromDays day
  ⟨padNat 4 c.1.toNat ++ '-' :: padNat 2 c.2.1 ++ '-' :: padNat 2 c.2.2 ++ 'T' ::
    padNat 2 (msod / 3600000) ++ ':' :: padNat 2 (msod % 3600000 / 60000) ++ ':' ::
    padNat 2 (msod % 60000 / 1000) ++ '.' :: padNat 3 (msod % 1000) ++ ['Z']⟩

/-- Lowercase hexadecimal digit character. -/
def hexDigit (d : Nat) : Char :=
  if d < 10 then Char.ofNat (48 + d) else Char.ofNat (87 + d)

/-- JSON.stringify escaping of one string character (ECMA-262
QuoteJSONString): quote, backslash and the control shorthands get a
backslash escape, other code points below 32 get a `\u00XX` escape, and
everything else is copied verbatim. -/
def escChar (c : Char) : List Char :=
  if c = '"' then ['\\', '"']
  else if c = '\\' then ['\\', '\\']
  else if c = '\x08' then ['\\', 'b']
  else if c = '\t' then ['\\', 't']
  else if c = '\n' then ['\\', 'n']
  else if c = '\x0c' then ['\\', 'f']
  else if c = '\r' then ['\\', 'r']
  else if c.toNat < 32 then
    ['\\', 'u', '0', '0', hexDigit (c.toNat / 16), hexDigit (c.toNat % 16)]
  else [c]

/-- Escaped body of a JSON string. -/
def escBody : List Char → List Char
  | [] => []
  | c :: cs => escChar c ++ escBody cs

/-- Quoted, escaped JSON rendering of a string. -/
def escString (s : String) : List Char := '"' :: escBody s.data ++ ['"']

/-- Decimal rendering of an integer-valued JS number. -/
def printInt (n : Int) : List Char :=
  if n < 0 then '-' :: natDigits n.natAbs else natDigits n.toNat

mutual
/-- JSON.stringify of a value (no replacer, no indent): `Date`s serialize
through `toJSON` to their ISO string; the app's stored values contain no
`undefined`, functions, or cycles. -/
def printVal : JsVal → List Char
  | .null => "null".data
  | .bool true => "true".data
  | .bool false => "false".data
  | .num n => printInt n
  | .str s => escString s
  | .date ms => escString (isoOfMs ms)
  | .arr es => '[' :: printElems es ++ [']']
  | .obj ms => '\x7b' :: printMems ms ++ ['\x7d']

/-- Comma-separated renderings of array elements. -/
def printElems : List JsVal → List Char
  | [] => []
  | [v] => printVal v
  | v :: vs => printVal v ++ ',' :: printElems vs

/-- Comma-separated `"key":value` renderings of object members. -/
def printMems : List (String × JsVal) → List Char
  | [] => []
  | [(k, v)] => escString k ++ ':' :: printVal v
  | (k, v) :: ms => escString k ++ ':' :: printVal v ++ ',' :: printMems ms
end

/-- JSON.stringify as a string-valued function. -/
def jsonStringify (v : JsVal) : String := ⟨printVal v⟩

/-- JSON insignificant whitespace. -/
def jsonWs (c : Char) : Bool := c = ' ' || c = '\t' || c = '\n' || c = '\r'

/-- Skip insignificant whitespace. -/
def skipWs (cs : List Char) : List Char := cs.dropWhile jsonWs

/-- Value of a hexadecimal digit character. -/
def hexVal? (c : Char) : Option Nat :=
  if '0' ≤ c ∧ c ≤ '9' then some (c.toNat - 48)
  else if 'a' ≤ c ∧ c ≤ 'f' then some (c.toNat - 87)
  else if 'A' ≤ c ∧ c ≤ 'F' then some (c.toNat - 55)
  else none

/-- JSON single-character escape shorthands. -/
def unescapeChar : Char → Option Char
  | '/' => some '/'
  | 'b' => some '\x08'
  | 't' => some '\t'
  | 'n' => some '\n'
  | 'f' => some '\x0c'
  | 'r' => some '\r'
  | '"' => some '"'
  | '\\' => some '\\'
  | _ => none

/-- Parse the body of a JSON string after the opening quote, returning the
decoded characters and the input after the closing quote.  Unescaped
control characters are a syntax error, as in JSON. -/
def parseStrBody : List Char → Option (List Char × List Char)
  | [] => none
  | '"' :: rest => some ([], rest)
  | '\\' :: 'u' :: a :: b :: c :: d :: rest =>
    match hexVal? a, hexVal? b, hexVal? c, hexVal? d with
    | some ha, some hb, some hc, some hd =>
      (parseStrBody rest).map fun p =>
        (Char.ofNat (4096 * ha + 256 * hb + 16 * hc + hd) :: p.1, p.2)
    | _, _, _, _ => none
  | '\\' :: e :: rest =>
    match unescapeChar e with
    | some c => (parseStrBody rest).map fun p => (c :: p.1, p.2)
    | none => none
  | c :: rest =>
    if c.toNat < 32 then none
    else (parseStrBody rest).map fun p => (c :: p.1, p.2)

/-- Accumulate decimal digits, stopping at the first non-digit. -/
def parseNatAux (acc : Nat) : List Char → Nat × List Char
  | c :: rest =>
    if c.isDigit then parseNatAux (10 * acc + (c.toNat - 48)) rest else (acc, c :: rest)
  | [] => (acc, [])

mutual
/-- Recursive-descent JSON value parser.  Numbers are restricted to the
integer forms, the only numbers this application ever persists; fuel
decreases on every recursive call, and `2 * length + 2` fuel is enough for
any serializer output. -/
def parseVal : Nat → List Char → Option (JsVal × List Char)
  | 0, _ => none
  | fuel + 1, cs =>
    match skipWs cs with
    | 'n' :: 'u' :: 'l' :: 'l' :: rest => some (.null, rest)
    | 't' :: 'r' :: 'u' :: 'e' :: rest => some (.bool true, rest)
    | 'f' :: 'a' :: 'l' :: 's' :: 'e' :: rest => some (.bool false, rest)
    | '"' :: rest => (parseStrBody rest).map fun p => (.str ⟨p.1⟩, p.2)
    | '[' :: rest =>
      match skipWs rest with
      | ']' :: rest2 => some (.arr [], rest2)
      | _ => (parseElems fuel rest).map fun p => (.arr p.1, p.2)
    | '\x7b' :: rest =>
      match skipWs rest with
      | '\x7d' :: rest2 => some (.obj [], rest2)
      | _ => (parseMems fuel rest).map fun p => (.obj p.1, p.2)
    | '-' :: c :: rest =>
      if c.isDigit then
        let p := parseNatAux 0 (c :: rest)
        some (.num (-(p.1 : Int)), p.2)
      else none
    | c :: rest =>
      if c.isDigit then
        let p := parseNatAux 0 (c :: rest)
        some (.num (p.1 : Int), p.2)
      else none
    | [] => none

/-- Parse one or more comma-separated array elements and the closing
bracket. -/
def parseElems : Nat → List Char → Option (List JsVal × List Char)
  | 0, _ => none
  | fuel + 1, cs =>
    match parseVal fuel cs with
    | none => none
    | some (v, rest) =>
      match skipWs rest with
      | ',' :: rest2 => (parseElems fuel rest2).map fun p => (v :: p.1, p.2)
      | ']' :: rest2 => some ([v], rest2)
      | _ => none

/-- Parse one or more comma-separated object members and the closing
brace. -/
def parseMems : Nat → List Char → Option (List (String × JsVal) × List Char)
  | 0, _ => none
  | fuel + 1, cs =>
    match skipWs cs with
    | '"' :: rest =>
      match parseStrBody rest with
      | none => none
      | some (k, rest2) =>
        match skipWs rest2 with
        | ':' :: rest3 =>
          match parseVal fuel rest3 with
          | none => none
          | some (v, rest4) =>
            match skipWs rest4 with
            | ',' :: rest5 => (parseMems fuel rest5).map fun p => ((⟨k⟩, v) :: p.1, p.2)
            | '\x7d' :: rest5 => some ([(⟨k⟩, v)], rest5)
            | _ => none
        | _ => none
    | _ => none
end

/-- JSON.parse (no reviver): parse one value, allow surrounding whitespace,
require the input to be fully consumed.  `none` models a thrown
SyntaxError. -/
def jsonParse (s : String) : Option JsVal :=
  match parseVal (2 * s.length + 2) s.data with
  | some (v, rest) => if skipWs rest = [] then some v else none
  | none => none

/-- Value read and installed for one storage key at startup: a `getItem`
miss (`none`) and the empty string are falsy and leave the default initial
state in place; any other string goes through `JSON.parse`, which throws a
SyntaxError on malformed input and whose result is installed with no
validation. -/
def readKey (saved : Option String) (dflt : JsVal) : Except String JsVal :=
  match saved with
  | none => Except.ok dflt
  | some s =>
    if s = "" then Except.ok dflt
    else
      match jsonParse s with
      | some v => Except.ok v
      | none => Except.error "SyntaxError"

/-- Startup load effect (source lines 565-574): read `complexTodos`, then
`darkMode`.  A thrown parse error aborts the whole effect (nothing catches
it), so the `darkMode` read is only reached when the first parse succeeds;
the initial state is the empty array and `false`. -/
def loadFromStorage (savedTodos savedDark : Option String) :
    Except String (JsVal × JsVal) :=
  match readKey savedTodos (JsVal.arr []) with
  | Except.error e => Except.error e
  | Except.ok todos =>
    match readKey savedDark (JsVal.bool false) with
    | Except.error e => Except.error e
    | Except.ok dark => Except.ok (todos, dark)

/-- Runtime value of a task record as held in memory: the field order of
the object literal in `addTodo`, with `createdAt` a `Date` object. -/
def todoToJsVal (t : Todo) : JsVal :=
  .obj [("id", .num t.id), ("text", .str t.text),
        ("completed", .bool t.completed),
        ("priority", .str t.priority.jsName),
        ("category", .str t.category.jsName),
        ("dueDate", match t.dueDate with | none => .null | some s => .str s),
        ("createdAt", .date t.createdAt), ("notes", .str t.notes)]

/-- Persisted image of a task: what `JSON.parse` hands back after a
`JSON.stringify` round trip — identical to the in-memory value except
that `createdAt` has become the ISO-8601 string of the `Date` object. -/
def persistedTodoVal (t : Todo) : JsVal :=
  .obj [("id", .num t.id), ("text", .str t.text),
        ("completed", .bool t.completed),
        ("priority", .str t.priority.jsName),
        ("category", .str t.category.jsName),
        ("dueDate", match t.dueDate with | none => .null | some s => .str s),
        ("createdAt", .str (isoOfMs t.createdAt)), ("notes", .str t.notes)]

/-- Save effect of the persistence sync (source lines 577-579):
`localStorage.setItem('complexTodos', JSON.stringify(todos))`. -/
def serializeTodos (todos : List Todo) : String :=
  jsonStringify (.arr (todos.map todoToJsVal))

mutual
/-- Value-level effect of a stringify/parse round trip: every `Date`
becomes its `toJSON` ISO string, everything else is unchanged. -/
def stripDates : JsVal → JsVal
  | .date ms => .str (isoOfMs ms)
  | .arr es => .arr (stripElems es)
  | .obj ms => .obj (stripMems ms)
  | .null => .null
  | .bool b => .bool b
  | .num n => .num n
  | .str s => .str s

/-- Date stripping over array elements. -/
def stripElems : List JsVal → List JsVal
  | [] => []
  | v :: vs => stripDates v :: stripElems vs

/-- Date stripping over object members. -/
def stripMems : List (String × JsVal) → List (String × JsVal)
  | [] => []
  | (k, v) :: ms => (k, stripDates v) :: stripMems ms
end

/-- Concrete task with no due date, for the specification's due-date
sorting example. -/
def exNull : Todo := ⟨1, "n", false, .medium, .personal, none, 1, ""⟩

/-- Concrete task due 2024-01-01. -/
def exJan : Todo := ⟨2, "j", false, .medium, .personal, some "2024-01-01", 2, ""⟩

/-- Concrete task due 2024-06-01. -/
def exJun : Todo := ⟨3, "u", false, .medium, .personal, some "2024-06-01", 3, ""⟩

/-- Concrete add-handler state for the duplicate-id scenarios. -/
def inpA : AddInput := ⟨"first", .medium, .personal, "", ""⟩

/-- Second concrete add-handler state for the duplicate-id scenarios. -/
def inpB : AddInput := ⟨"second", .high, .work, "", ""⟩

/-- Concrete completed task for the progress example. -/
def exDone : Todo := ⟨1, "a", true, .medium, .personal, none, 1, ""⟩

/-- Concrete pending task for the progress example. -/
def exPending : Todo := ⟨2, "b", false, .medium, .personal, none, 2, ""⟩

/-- Helper: flipping the completion flag of the record that matches the
toggled id twice restores the record. -/
theorem toggle_flip_flip (i : Nat) (t : Todo) :
    (fun todo : Todo =>
        if todo.id = i then { todo with completed := !todo.completed } else todo)
      ((fun todo : Todo =>
        if todo.id = i then { todo with completed := !todo.completed } else todo) t) = t := by
  obtain ⟨ti, tx, c, p, cat, dd, ca, nt⟩ := t
  by_cases h : ti = i <;> simp [h, Bool.not_not]

/-- Helper: toggling an id that no record carries maps every record to
itself. -/
theorem toggle_absent (j : Nat) (todos : List Todo) (hj : j ∉ todos.map Todo.id) :
    toggleTodo j todos = todos := by
  induction todos with
  | nil => rfl
  | cons t ts ih =>
    rw [List.map_cons, List.mem_cons] at hj
    push_neg at hj
    have h1 : ¬ t.id = j := fun h => hj.1 h.symm
    simp only [toggleTodo, List.map_cons, if_neg h1]
    exact congrArg (t :: ·) (ih hj.2)

/-- C7: an add whose text trims to empty (blank or whitespace-only input)
is a no-op: the task collection is returned exactly unchanged and no task
is created. -/
theorem C7_blank_add_noop (now : Nat) (inp : AddInput) (todos : List Todo)
    (h : jsTrim inp.inputValue = "") : addTodo now inp todos = todos := by
  simp [addTodo, h]

/-- Witness for C7 at a whitespace-only input. -/
theorem C7_blank_add_noop_witness :
    jsTrim "  " = "" ∧ addTodo 1 ⟨"  ", .medium, .personal, "", ""⟩ [exDone] = [exDone] :=
  ⟨by decide, C7_blank_add_noop 1 ⟨"  ", .medium, .personal, "", ""⟩ [exDone] (by decide)⟩

/-- C8: toggling any id twice restores the collection (so in particular the
completed flag of a present task returns to its original value), and
toggling an id absent from the collection leaves it unchanged. -/
theorem C8_toggle_involution (todos : List Todo) (i j : Nat)
    (hj : j ∉ todos.map Todo.id) :
    toggleTodo i (toggleTodo i todos) = todos ∧ toggleTodo j todos = todos := by
  refine ⟨?_, toggle_absent j todos hj⟩
  rw [toggleTodo, toggleTodo, List.map_map]
  have hff : ((fun todo : Todo =>
      if todo.id = i then { todo with completed := !todo.completed } else todo) ∘
      (fun todo : Todo =>
      if todo.id = i then { todo with completed := !todo.completed } else todo)) = id := by
    funext t
    exact toggle_flip_flip i t
  rw [hff, List.map_id]

/-- Witness for C8: a present id 1 and an absent id 2. -/
theorem C8_toggle_involution_witness :
    (2 ∉ ([exDone] : List Todo).map Todo.id) ∧
    toggleTodo 1 (toggleTodo 1 [exDone]) = [exDone] ∧ toggleTodo 2 [exDone] = [exDone] :=
  ⟨by decide, C8_toggle_involution [exDone] 1 2 (by decide)⟩

/-- C10: the aggregate statistics partition the collection — active plus
completed equals total, and the high-priority count (high priority and not
completed) never exceeds the active count.  The statistics are a function
of the full unfiltered collection alone, so this holds for every store
state, whatever the active filters. -/
theorem C10_stats_partition (todos : List Todo) :
    (statsOf todos).active + (statsOf todos).completed = (statsOf todos).total ∧
    (statsOf todos).highPriority ≤ (statsOf todos).active := by
  constructor
  · simp only [statsOf, ← List.countP_eq_length_filter]
    rw [Nat.add_comm]
    simpa using (List.length_eq_countP_add_countP (fun t : Todo => t.completed) todos).symm
  · simp only [statsOf, ← List.countP_eq_length_filter]
    refine List.countP_mono_left fun x _ hx => ?_
    rw [Bool.and_eq_true] at hx
    exact hx.2

/-- Helper: `Math.round` lands within one half of its argument. -/
theorem mathRound_close (q : ℚ) : |(mathRound q : ℚ) - q| ≤ 1 / 2 := by
  have h1 : ((⌊q + 1 / 2⌋ : ℤ) : ℚ) ≤ q + 1 / 2 := Int.floor_le (q + 1 / 2)
  have h2 : q + 1 / 2 < ((⌊q + 1 / 2⌋ : ℤ) : ℚ) + 1 := Int.lt_floor_add_one (q + 1 / 2)
  rw [mathRound, abs_le]
  constructor <;> linarith

/-- C9: progressPercent is defined as 0 when `total = 0` (never the NaN a
guardless division would give), is the exact percentage
`completed / total * 100` rounded to a nearest integer (within one half)
when `total > 0`, and concretely is 0 for the empty collection and 50 for
one completed task out of two. -/
theorem C9_progressPercent_rounding (todos : List Todo) :
    ((statsOf todos).total = 0 → progressPercent todos = 0) ∧
    (0 < (statsOf todos).total →
      |(progressPercent todos : ℚ) -
        ((statsOf todos).completed : ℚ) / ((statsOf todos).total : ℚ) * 100| ≤ 1 / 2) ∧
    progressPercent [] = 0 ∧ progressPercent [exDone, exPending] = 50 := by
  refine ⟨?_, ?_, rfl, ?_⟩
  · intro h0
    simp [progressPercent, h0]
  · intro h
    have hrw : progressPercent todos =
        mathRound (((statsOf todos).completed : ℚ) / ((statsOf todos).total : ℚ) * 100) := by
      simp [progressPercent, h]
    rw [hrw]
    exact mathRound_close _
  · have hs : statsOf [exDone, exPending] = ⟨2, 1, 1, 0⟩ := by decide
    have h2 : progressPercent [exDone, exPending] =
        mathRound ((1 : ℚ) / (2 : ℚ) * 100) := by
      rw [progressPercent, hs]
      norm_num
    rw [h2, mathRound]
    refine Int.floor_eq_iff.mpr ?_
    norm_num

/-- Witness for C9: the empty collection discharges the `total = 0` branch
and the two-task collection discharges the `total > 0` branch. -/
theorem C9_progressPercent_rounding_witness :
    ((statsOf ([] : List Todo)).total = 0 ∧ progressPercent [] = 0) ∧
    (0 < (statsOf [exDone, exPending]).total ∧
      |(progressPercent [exDone, exPending] : ℚ) -
        ((statsOf [exDone, exPending]).completed : ℚ) /
          ((statsOf [exDone, exPending]).total : ℚ) * 100| ≤ 1 / 2) :=
  ⟨⟨rfl, (C9_progressPercent_rounding []).1 rfl⟩,
   ⟨by decide, (C9_progressPercent_rounding [exDone, exPending]).2.1 (by decide)⟩⟩

/-- C2 counterexample: for a pair of tasks that both have a null due date
the comparator returns 1, not 0, so it is false that it returns 0 exactly
when both due dates are null. -/
theorem C2_counterexample :
    exNull.dueDate = none ∧ exPending.dueDate = none ∧
    cmpDueDate exNull exPending = 1 ∧ cmpDueDate exNull exPending ≠ 0 :=
  ⟨rfl, rfl, rfl, by decide⟩

/-- C2 amended: for set (and valid) due dates the comparator is the
difference of the two date time values — zero exactly on equal dates,
negative exactly when the first is earlier, so the order is ascending; a
task with a null due date compares after everything (value 1 whenever the
first task's due date is null — including when both are null, where the
claimed 0 is not returned — and -1 when only the second is null); and the
specification's example sorts as stated. -/
theorem C2_dueDate_comparator_amended (a b : Todo) (x y : String) (tx ty : Int)
    (hax : a.dueDate = some x) (hby : b.dueDate = some y)
    (hx : dueMs x = some tx) (hy : dueMs y = some ty) :
    (cmpDueDate a b = tx - ty ∧ (cmpDueDate a b = 0 ↔ tx = ty) ∧
      (cmpDueDate a b < 0 ↔ tx < ty)) ∧
    (∀ c d : Todo, c.dueDate = none → cmpDueDate c d = 1) ∧
    (∀ c d : Todo, (∃ s ts, c.dueDate = some s ∧ dueMs s = some ts) →
      d.dueDate = none → cmpDueDate c d = -1) ∧
    dueDateSort [exNull, exJan, exJun] = [exJan, exJun, exNull] := by
  have hxe : ¬ x = "" := by
    intro he
    rw [he] at hx
    exact Option.noConfusion hx
  have hye : ¬ y = "" := by
    intro he
    rw [he] at hy
    exact Option.noConfusion hy
  refine ⟨?_, ?_, ?_, by decide⟩
  · have hcmp : cmpDueDate a b = tx - ty := by
      simp [cmpDueDate, dueFalsy, hax, hby, hxe, hye, hx, hy]
    rw [hcmp]
    exact ⟨rfl, by omega, by omega⟩
  · intro c d hc
    simp [cmpDueDate, dueFalsy, hc]
  · rintro c d ⟨s, ts, hcs, hts⟩ hd
    have hse : ¬ s = "" := by
      intro he
      rw [he] at hts
      exact Option.noConfusion hts
    simp [cmpDueDate, dueFalsy, hcs, hd, hse]

/-- Witness for C2 at the two dated example tasks. -/
theorem C2_dueDate_comparator_witness :
    exJan.dueDate = some "2024-01-01" ∧ exJun.dueDate = some "2024-06-01" ∧
    dueMs "2024-01-01" = some 1704067200000 ∧
    dueMs "2024-06-01" = some 1717200000000 ∧
    cmpDueDate exJan exJun = 1704067200000 - 1717200000000 :=
  ⟨rfl, rfl, by decide, by decide,
    ((C2_dueDate_comparator_amended exJan exJun "2024-01-01" "2024-06-01"
      1704067200000 1717200000000 rfl rfl (by decide) (by decide)).1).1⟩

/-- C5: the code's `isOverdue` mixes a UTC-midnight timestamp comparison
with a local calendar-day comparison.  At UTC offset -300 minutes a task
due on the current local calendar day (due 2024-06-01, now 2024-06-01
12:00 local = 17:00 UTC, local day number 19875 on both sides of the
specification's comparison) is classified overdue by the code, while the
day-granularity predicate the specification states is false there. -/
theorem C5_overdue_timezone_code_bug :
    isOverdue (-300) 1717261200000 (some "2024-06-01") = true ∧
    specOverdue (-300) 1717261200000 (some "2024-06-01") = false ∧
    dueMs "2024-06-01" = some (19875 * 86400000) ∧
    localDay (-300) 1717261200000 = 19875 := by
  refine ⟨?_, ?_, ?_, ?_⟩ <;> decide

/-- C4 counterexample: two adds during the same clock millisecond (the id
is `Date.now()`) leave the store holding two tasks with the same id 5. -/
theorem C4_counterexample :
    (applyAdds [(5, inpA), (5, inpB)] []).map Todo.id = [5, 5] ∧
    ¬ ((applyAdds [(5, inpA), (5, inpB)] []).map Todo.id).Nodup :=
  ⟨by decide, by decide⟩

/-- Helper: a sequence of adds whose clock readings are pairwise distinct
and avoid the ids already in the store keeps the id list duplicate-free. -/
theorem applyAdds_nodup (events : List (Nat × AddInput)) (todos : List Todo)
    (hN : (events.map Prod.fst).Nodup) (hT : (todos.map Todo.id).Nodup)
    (hD : ∀ e ∈ events, e.1 ∉ todos.map Todo.id) :
    ((applyAdds events todos).map Todo.id).Nodup := by
  induction events generalizing todos with
  | nil => exact hT
  | cons e es ih =>
    rw [List.map_cons, List.nodup_cons] at hN
    rw [applyAdds, List.foldl_cons]
    show ((applyAdds es (addTodo e.1 e.2 todos)).map Todo.id).Nodup
    by_cases hb : jsTrim e.2.inputValue = ""
    · rw [addTodo, if_pos hb]
      exact ih todos hN.2 hT fun e' he' => hD e' (List.mem_cons_of_mem e he')
    · rw [addTodo, if_neg hb]
      apply ih (mkTodo e.1 e.2 :: todos) hN.2
      · rw [List.map_cons, List.nodup_cons]
        exact ⟨hD e (List.mem_cons_self e es), hT⟩
      · intro e' he'
        rw [List.map_cons, List.mem_cons]
        rintro (h1 | h2)
        · have h1' : e'.1 = e.1 := h1
          exact hN.1 (h1' ▸ List.mem_map_of_mem Prod.fst he')
        · exact hD e' (List.mem_cons_of_mem e he') h2

/-- C4 amended: ids are unique across the store provided the clock
readings of the adds are pairwise distinct (`Date.now()` strictly
increases between adds); two adds within the same millisecond violate
uniqueness, as the counterexample shows. -/
theorem C4_unique_ids_amended (events : List (Nat × AddInput))
    (h : (events.map Prod.fst).Nodup) :
    ((applyAdds events []).map Todo.id).Nodup :=
  applyAdds_nodup events [] h List.nodup_nil fun e _ => by simp

/-- Witness for C4 at two adds with distinct clock readings. -/
theorem C4_unique_ids_witness :
    ([(1, inpA), (2, inpB)].map Prod.fst).Nodup ∧
    ((applyAdds [(1, inpA), (2, inpB)] []).map Todo.id).Nodup :=
  ⟨by decide, C4_unique_ids_amended [(1, inpA), (2, inpB)] (by decide)⟩

/-- C6 counterexample: adding at clock value 5 to a store that already
holds a task created during the same millisecond prepends a task whose id
equals an existing task's id — the freshly assigned id is not unique. -/
theorem C6_counterexample :
    addTodo 5 inpB (addTodo 5 inpA []) = mkTodo 5 inpB :: addTodo 5 inpA [] ∧
    (mkTodo 5 inpB).id ∈ (addTodo 5 inpA []).map Todo.id :=
  ⟨by decide, by decide⟩

/-- C6 amended: an add with non-blank text prepends exactly one new task
carrying the given text (untrimmed), priority, category, notes, the due
date as given (null when the empty string was given), `completed = false`
and id equal to the clock reading, leaving all previously existing tasks
unchanged in their prior order; the new id is unique in the collection
whenever no existing task carries the same clock reading. -/
theorem C6_add_prepends_amended (now : Nat) (inp : AddInput) (todos : List Todo)
    (htext : jsTrim inp.inputValue ≠ "") (hfresh : now ∉ todos.map Todo.id) :
    addTodo now inp todos = mkTodo now inp :: todos ∧
    (mkTodo now inp).text = inp.inputValue ∧
    (mkTodo now inp).completed = false ∧
    (mkTodo now inp).priority = inp.priority ∧
    (mkTodo now inp).category = inp.category ∧
    (inp.dueDate = "" → (mkTodo now inp).dueDate = none) ∧
    (inp.dueDate ≠ "" → (mkTodo now inp).dueDate = some inp.dueDate) ∧
    (mkTodo now inp).notes = inp.notes ∧
    (mkTodo now inp).id = now ∧ (mkTodo now inp).id ∉ todos.map Todo.id := by
  refine ⟨by rw [addTodo, if_neg htext], rfl, rfl, rfl, rfl, ?_, ?_, rfl, rfl, hfresh⟩
  · intro h
    simp [mkTodo, h]
  · intro h
    simp [mkTodo, h]

/-- Witness for C6: a non-blank add at clock value 9 over a store whose
only task has id 1. -/
theorem C6_add_prepends_witness :
    (jsTrim inpA.inputValue ≠ "" ∧ 9 ∉ ([exDone] : List Todo).map Todo.id) ∧
    addTodo 9 inpA [exDone] = mkTodo 9 inpA :: [exDone] :=
  ⟨⟨by decide, by decide⟩,
    (C6_add_prepends_amended 9 inpA [exDone] (by decide) (by decide)).1⟩

/-- C1 counterexample: the persisted tasks value "\x7b" is malformed JSON;
`JSON.parse` throws, nothing catches it, and the startup effect fails
instead of falling back to the empty task list and light theme. -/
theorem C1_counterexample :
    jsonParse "\x7b" = none ∧
    loadFromStorage (some "\x7b") none = Except.error "SyntaxError" ∧
    loadFromStorage (some "\x7b") none ≠
      Except.ok (JsVal.arr [], JsVal.bool false) := by
  refine ⟨rfl, rfl, ?_⟩
  intro h
  have h1 : loadFromStorage (some "\x7b") none = Except.error "SyntaxError" := rfl
  rw [h1] at h
  exact Except.noConfusion h

/-- C1 amended: loading with the tasks value absent or empty (and likewise
the theme value) starts with the empty task list and the light theme; a
present non-empty tasks value that fails to parse makes the startup effect
throw a parse error instead of falling back; and a tasks value that parses
is installed as-is with no validation (the subsequent theme read may still
throw). -/
theorem C1_load_fallback_amended (st sd : Option String) :
    ((st = none ∨ st = some "") ∧ (sd = none ∨ sd = some "") →
      loadFromStorage st sd = Except.ok (JsVal.arr [], JsVal.bool false)) ∧
    (∀ s, st = some s → s ≠ "" → jsonParse s = none →
      loadFromStorage st sd = Except.error "SyntaxError") ∧
    (∀ s v, st = some s → s ≠ "" → jsonParse s = some v →
      (∃ d, loadFromStorage st sd = Except.ok (v, d)) ∨
        (∃ e, loadFromStorage st sd = Except.error e)) := by
  refine ⟨?_, ?_, ?_⟩
  · rintro ⟨rfl | rfl, rfl | rfl⟩ <;> rfl
  · rintro s rfl hs hp
    have hk : readKey (some s) (JsVal.arr []) = Except.error "SyntaxError" := by
      simp only [readKey, if_neg hs, hp]
    rw [loadFromStorage, hk]
  · rintro s v rfl hs hp
    have hk : readKey (some s) (JsVal.arr []) = Except.ok v := by
      simp only [readKey, if_neg hs, hp]
    rw [loadFromStorage, hk]
    cases hrd : readKey sd (JsVal.bool false) with
    | error e => exact Or.inr ⟨e, rfl⟩
    | ok d => exact Or.inl ⟨d, rfl⟩

/-- Witness for C1: both keys absent, a malformed tasks value, and a
well-formed tasks value. -/
theorem C1_load_fallback_witness :
    loadFromStorage none none = Except.ok (JsVal.arr [], JsVal.bool false) ∧
    loadFromStorage (some "no") none = Except.error "SyntaxError" ∧
    ((∃ d, loadFromStorage (some "[]") none = Except.ok (JsVal.arr [], d)) ∨
      (∃ e, loadFromStorage (some "[]") none = Except.error e)) :=
  ⟨(C1_load_fallback_amended none none).1 ⟨Or.inl rfl, Or.inl rfl⟩,
   (C1_load_fallback_amended (some "no") none).2.1 "no" rfl (by decide) rfl,
   (C1_load_fallback_amended (some "[]") none).2.2 "[]" (JsVal.arr []) rfl
     (by decide) rfl⟩

/-- Helper: facts about decimal digit characters. -/
theorem digitChar_facts : ∀ d : Nat, d < 10 →
    (Char.ofNat (48 + d)).isDigit = true ∧ (Char.ofNat (48 + d)).toNat = 48 + d := by
  decide

/-- Helper: hexadecimal digit characters parse back to their value. -/
theorem hexVal_hexDigit : ∀ d : Nat, d < 16 → hexVal? (hexDigit d) = some d := by
  decide

/-- Helper: the value parser on input led by a decimal digit reads a
number. -/
theorem parseVal_digit (f : Nat) (d : Nat) (hd : d < 10) (cs : List Char) :
    parseVal (f + 1) (Char.ofNat (48 + d) :: cs) =
      some (JsVal.num ((parseNatAux 0 (Char.ofNat (48 + d) :: cs)).1 : Int),
        (parseNatAux 0 (Char.ofNat (48 + d) :: cs)).2) := by
  interval_cases d <;> rfl

/-- Helper: the value parser on a minus sign followed by a digit reads a
negated number. -/
theorem parseVal_neg_digit (f : Nat) (d : Nat) (hd : d < 10) (cs : List Char) :
    parseVal (f + 1) ('-' :: Char.ofNat (48 + d) :: cs) =
      some (JsVal.num (-((parseNatAux 0 (Char.ofNat (48 + d) :: cs)).1 : Int)),
        (parseNatAux 0 (Char.ofNat (48 + d) :: cs)).2) := by
  interval_cases d <;> rfl

/-- Helper: value-parser dispatch on an opening quote. -/
theorem parseVal_quote (f : Nat) (l : List Char) :
    parseVal (f + 1) ('"' :: l) =
      (parseStrBody l).map fun p => (JsVal.str ⟨p.1⟩, p.2) := rfl

/-- Helper: value-parser dispatch on the `null` keyword. -/
theorem parseVal_null (f : Nat) (l : List Char) :
    parseVal (f + 1) ('n' :: 'u' :: 'l' :: 'l' :: l) = some (JsVal.null, l) := rfl

/-- Helper: value-parser dispatch on the `true` keyword. -/
theorem parseVal_true (f : Nat) (l : List Char) :
    parseVal (f + 1) ('t' :: 'r' :: 'u' :: 'e' :: l) = some (JsVal.bool true, l) := rfl

/-- Helper: value-parser dispatch on the `false` keyword. -/
theorem parseVal_false (f : Nat) (l : List Char) :
    parseVal (f + 1) ('f' :: 'a' :: 'l' :: 's' :: 'e' :: l) = some (JsVal.bool false, l) := rfl

/-- Helper: value-parser dispatch on an empty array. -/
theorem parseVal_emptyArr (f : Nat) (l : List Char) :
    parseVal (f + 1) ('[' :: ']' :: l) = some (JsVal.arr [], l) := rfl

/-- Helper: value-parser dispatch on an empty object. -/
theorem parseVal_emptyObj (f : Nat) (l : List Char) :
    parseVal (f + 1) ('\x7b' :: '\x7d' :: l) = some (JsVal.obj [], l) := rfl

/-- Helper: value-parser dispatch on an opening bracket. -/
theorem parseVal_arrOpen (f : Nat) (l : List Char) :
    parseVal (f + 1) ('[' :: l) =
      match skipWs l with
      | ']' :: rest2 => some (JsVal.arr [], rest2)
      | _ => Option.map (fun p => (JsVal.arr p.1, p.2)) (parseElems f l) := rfl

/-- Helper: value-parser dispatch on an opening brace. -/
theorem parseVal_objOpen (f : Nat) (l : List Char) :
    parseVal (f + 1) ('\x7b' :: l) =
      match skipWs l with
      | '\x7d' :: rest2 => some (JsVal.obj [], rest2)
      | _ => Option.map (fun p => (JsVal.obj p.1, p.2)) (parseMems f l) := rfl

/-- Helper: the string-body parser copies a verbatim (unescaped)
character. -/
theorem parseStrBody_verbatim (c : Char) (tail : List Char)
    (h1 : c ≠ '"') (h2 : c ≠ '\\') (h3 : ¬ c.toNat < 32) :
    parseStrBody (c :: tail) = (parseStrBody tail).map fun p => (c :: p.1, p.2) := by
  rw [parseStrBody.eq_def]
  split
  · simp_all
  · simp_all
  · simp_all
  · simp_all
  · simp_all

/-- Helper: digit accumulation stops at a non-digit. -/
theorem parseNatAux_stop (acc : Nat) (rest : List Char)
    (h : ∀ c cs, rest = c :: cs → c.isDigit = false) :
    parseNatAux acc rest = (acc, rest) := by
  cases rest with
  | nil => rfl
  | cons c cs => simp [parseNatAux, h c cs rfl]

/-- Helper: consuming a printed number shifts the accumulator. -/
theorem parseNatAux_digits (n : Nat) : ∀ acc rest,
    parseNatAux acc (natDigits n ++ rest) =
      parseNatAux (acc * 10 ^ (natDigits n).length + n) rest := by
  induction n using Nat.strong_induction_on with
  | _ n ih =>
    intro acc rest
    by_cases h : n < 10
    · rw [natDigits, if_pos h]
      have hd := digitChar_facts n h
      simp only [List.cons_append, List.nil_append, List.length_singleton]
      rw [parseNatAux, if_pos hd.1, hd.2]
      norm_num [Nat.mul_comm]
    · rw [natDigits, if_neg h]
      have hlt : n / 10 < n := Nat.div_lt_self (by omega) (by omega)
      rw [List.append_assoc, ih (n / 10) hlt acc _]
      have hd := digitChar_facts (n % 10) (Nat.mod_lt n (by omega))
      rw [List.singleton_append, parseNatAux, if_pos hd.1, hd.2]
      congr 1
      have hmod : 10 * (n / 10) + n % 10 = n := Nat.div_add_mod n 10
      rw [List.length_append, List.length_singleton, pow_succ]
      ring_nf
      omega

/-- Helper: a printed number starts with a digit character. -/
theorem natDigits_head (n : Nat) :
    ∃ d cs, natDigits n = Char.ofNat (48 + d) :: cs ∧ d < 10 := by
  induction n using Nat.strong_induction_on with
  | _ n ih =>
    by_cases h : n < 10
    · exact ⟨n, [], by rw [natDigits, if_pos h], h⟩
    · obtain ⟨d, cs, hc, hd⟩ := ih (n / 10) (Nat.div_lt_self (by omega) (by omega))
      exact ⟨d, cs ++ [Char.ofNat (48 + n % 10)], by rw [natDigits, if_neg h, hc]; rfl, hd⟩

/-- Helper: printed naturals parse back to themselves. -/
theorem parseVal_printNat (f n : Nat) (rest : List Char)
    (hrest : ∀ c cs, rest = c :: cs → c.isDigit = false) :
    parseVal (f + 1) (natDigits n ++ rest) = some (JsVal.num (n : Int), rest) := by
  obtain ⟨d, cs, hc, hd⟩ := natDigits_head n
  rw [hc, List.cons_append, parseVal_digit f d hd]
  have hX : parseNatAux 0 (Char.ofNat (48 + d) :: (cs ++ rest)) = (n, rest) := by
    rw [← List.cons_append, ← hc, parseNatAux_digits]
    simpa using parseNatAux_stop n rest hrest
  rw [hX]

/-- Helper: printed integers parse back to themselves. -/
theorem parseVal_printInt (f : Nat) (n : Int) (rest : List Char)
    (hrest : ∀ c cs, rest = c :: cs → c.isDigit = false) :
    parseVal (f + 1) (printInt n ++ rest) = some (JsVal.num n, rest) := by
  rw [printInt]
  by_cases h : n < 0
  · rw [if_pos h]
    obtain ⟨d, cs, hc, hd⟩ := natDigits_head n.natAbs
    rw [hc, List.cons_append, List.cons_append, parseVal_neg_digit f d hd]
    have hX : parseNatAux 0 (Char.ofNat (48 + d) :: (cs ++ rest)) = (n.natAbs, rest) := by
      rw [← List.cons_append, ← hc, parseNatAux_digits]
      simpa using parseNatAux_stop n.natAbs rest hrest
    rw [hX]
    have habs : -((n.natAbs : Nat) : Int) = n := by omega
    rw [habs]
  · rw [if_neg h, parseVal_printNat f n.toNat rest hrest]
    have htn : ((n.toNat : Nat) : Int) = n := by omega
    rw [htn]

/-- Helper: escaping one character and parsing it back restores it in
front of whatever the rest parses to. -/
theorem parseStrBody_escChar (c : Char) (tail : List Char) :
    parseStrBody (escChar c ++ tail) = (parseStrBody tail).map fun p => (c :: p.1, p.2) := by
  by_cases h1 : c = '"'
  · subst h1; rfl
  by_cases h2 : c = '\\'
  · subst h2; rfl
  by_cases h3 : c = '\x08'
  · subst h3; rfl
  by_cases h4 : c = '\t'
  · subst h4; rfl
  by_cases h5 : c = '\n'
  · subst h5; rfl
  by_cases h6 : c = '\x0c'
  · subst h6; rfl
  by_cases h7 : c = '\r'
  · subst h7; rfl
  by_cases h8 : c.toNat < 32
  · rw [escChar, if_neg h1, if_neg h2, if_neg h3, if_neg h4, if_neg h5, if_neg h6,
      if_neg h7, if_pos h8]
    have hhi : c.toNat / 16 < 16 := by omega
    have hlo : c.toNat % 16 < 16 := by omega
    show parseStrBody ('\\' :: 'u' :: '0' :: '0' :: hexDigit (c.toNat / 16) ::
      hexDigit (c.toNat % 16) :: tail) = _
    rw [parseStrBody, hexVal_hexDigit _ hhi, hexVal_hexDigit _ hlo]
    have hchar : Char.ofNat (4096 * 0 + 256 * 0 + 16 * (c.toNat / 16) + c.toNat % 16) = c := by
      have harith : 4096 * 0 + 256 * 0 + 16 * (c.toNat / 16) + c.toNat % 16 = c.toNat := by
        omega
      rw [harith, Char.ofNat_toNat]
    rw [show hexVal? '0' = some 0 from rfl]
    show Option.map (fun p => (Char.ofNat (4096 * 0 + 256 * 0 + 16 * (c.toNat / 16) +
      c.toNat % 16) :: p.1, p.2)) (parseStrBody tail) = _
    rw [hchar]
  · rw [escChar, if_neg h1, if_neg h2, if_neg h3, if_neg h4, if_neg h5, if_neg h6,
      if_neg h7, if_neg h8, List.singleton_append, parseStrBody_verbatim c tail h1 h2 h8]

/-- Helper: an escaped string body followed by the closing quote parses
back to the original characters. -/
theorem parseStrBody_escBody (s : List Char) (rest : List Char) :
    parseStrBody (escBody s ++ '"' :: rest) = some (s, rest) := by
  induction s with
  | nil => rfl
  | cons c cs ih =>
    rw [escBody, List.append_assoc, parseStrBody_escChar, ih]
    rfl

/-- Helper: whitespace skipping fixes a non-whitespace head. -/
theorem skipWs_cons (c : Char) (l : List Char) (h : jsonWs c = false) :
    skipWs (c :: l) = c :: l := by
  simp [skipWs, List.dropWhile_cons, h]

/-- Helper: a character with a digit code point is neither JSON whitespace
nor a closing bracket. -/
theorem not_ws_of_toNat (x : Char) (d : Nat) (hd : d < 10) (hx : x.toNat = 48 + d) :
    jsonWs x = false ∧ x ≠ ']' := by
  constructor
  · have e1 : ¬ x = ' ' := fun h => by
      subst h; have h32 : (32 : Nat) = 48 + d := hx; omega
    have e2 : ¬ x = '\t' := fun h => by
      subst h; have h9 : (9 : Nat) = 48 + d := hx; omega
    have e3 : ¬ x = '\n' := fun h => by
      subst h; have h10 : (10 : Nat) = 48 + d := hx; omega
    have e4 : ¬ x = '\r' := fun h => by
      subst h; have h13 : (13 : Nat) = 48 + d := hx; omega
    simp [jsonWs, e1, e2, e3, e4]
  · intro h
    subst h
    have h93 : (93 : Nat) = 48 + d := hx
    omega

/-- Helper: every serialized value starts with a character that is not
whitespace and not a closing bracket. -/
theorem printVal_head (v : JsVal) :
    ∃ c cs, printVal v = c :: cs ∧ jsonWs c = false ∧ c ≠ ']' := by
  cases v with
  | null => exact ⟨'n', _, rfl, by decide, by decide⟩
  | bool b =>
    cases b with
    | false => exact ⟨'f', _, rfl, by decide, by decide⟩
    | true => exact ⟨'t', _, rfl, by decide, by decide⟩
  | num n =>
    show ∃ c cs, printInt n = c :: cs ∧ _
    rw [printInt]
    by_cases h : n < 0
    · rw [if_pos h]
      exact ⟨'-', _, rfl, by decide, by decide⟩
    · rw [if_neg h]
      obtain ⟨d, cs, hc, hd⟩ := natDigits_head n.toNat
      have ht : (Char.ofNat (48 + d)).toNat = 48 + d := (digitChar_facts d hd).2
      obtain ⟨hw, hne⟩ := not_ws_of_toNat _ _ hd ht
      exact ⟨Char.ofNat (48 + d), cs, hc, hw, hne⟩
  | str s => exact ⟨'"', _, rfl, by decide, by decide⟩
  | date ms => exact ⟨'"', _, rfl, by decide, by decide⟩
  | arr es => exact ⟨'[', _, rfl, by decide, by decide⟩
  | obj ms => exact ⟨'\x7b', _, rfl, by decide, by decide⟩

/-- Helper: a cons with a non-digit head satisfies the number-stopping
side condition. -/
theorem head_not_digit (x : Char) (hx : x.isDigit = false) (l : List Char) :
    ∀ (c : Char) (cs : List Char), x :: l = c :: cs → c.isDigit = false := by
  intro c cs h
  injection h with h1 h2
  subst h1
  exact hx

/-- Helper: the parser inverts the serializer.  With fuel exceeding twice
the printed length, parsing a printed value (followed by input that cannot
extend a number) returns the value with every `Date` replaced by its ISO
string, and similarly for element and member lists followed by their
closing bracket or brace. -/
theorem parse_print_ok : ∀ f : Nat,
    (∀ v rest, 2 * (printVal v).length + 2 ≤ f →
      (∀ c cs, rest = c :: cs → c.isDigit = false) →
      parseVal f (printVal v ++ rest) = some (stripDates v, rest)) ∧
    (∀ es rest, es ≠ [] → 2 * (printElems es).length + 3 ≤ f →
      parseElems f (printElems es ++ ']' :: rest) = some (stripElems es, rest)) ∧
    (∀ ms rest, ms ≠ [] → 2 * (printMems ms).length + 3 ≤ f →
      parseMems f (printMems ms ++ '\x7d' :: rest) = some (stripMems ms, rest)) := by
  intro f
  induction f using Nat.strong_induction_on with
  | _ f ih =>
    match f with
    | 0 =>
      refine ⟨fun v rest hf _ => absurd hf (by omega),
        fun es rest hne hf => absurd hf (by omega),
        fun ms rest hne hf => absurd hf (by omega)⟩
    | f + 1 =>
      have ihv := (ih f (by omega)).1
      have ihe := (ih f (by omega)).2.1
      have ihm := (ih f (by omega)).2.2
      refine ⟨?_, ?_, ?_⟩
      · intro v rest hf hrest
        cases v with
        | null => exact parseVal_null f rest
        | bool b =>
          cases b with
          | true => exact parseVal_true f rest
          | false => exact parseVal_false f rest
        | num n => exact parseVal_printInt f n rest hrest
        | str s =>
          have hl : printVal (JsVal.str s) ++ rest =
              '"' :: (escBody s.data ++ '"' :: rest) := by
            simp [printVal, escString]
          rw [hl, parseVal_quote, parseStrBody_escBody]
          rfl
        | date ms =>
          have hl : printVal (JsVal.date ms) ++ rest =
              '"' :: (escBody (isoOfMs ms).data ++ '"' :: rest) := by
            simp [printVal, escString]
          rw [hl, parseVal_quote, parseStrBody_escBody]
          rfl
        | arr es =>
          cases es with
          | nil => exact parseVal_emptyArr f rest
          | cons e es =>
            have hlen : (printVal (JsVal.arr (e :: es))).length =
                (printElems (e :: es)).length + 2 := by
              simp [printVal]
            have hl : printVal (JsVal.arr (e :: es)) ++ rest =
                '[' :: (printElems (e :: es) ++ ']' :: rest) := by
              simp [printVal]
            rw [hl, parseVal_arrOpen]
            obtain ⟨c, cs, hc, hw, hne⟩ := printVal_head e
            have hhead : ∃ tl, printElems (e :: es) ++ ']' :: rest = c :: tl := by
              cases es with
              | nil => exact ⟨cs ++ ']' :: rest, by simp [printElems, hc]⟩
              | cons e2 es2 =>
                exact ⟨cs ++ ',' :: (printElems (e2 :: es2) ++ ']' :: rest),
                  by simp [printElems, hc]⟩
            obtain ⟨tl, htl⟩ := hhead
            rw [htl, skipWs_cons _ _ hw]
            have hm : (match c :: tl with
                | ']' :: rest2 => some (JsVal.arr [], rest2)
                | _ => Option.map (fun p => (JsVal.arr p.1, p.2))
                    (parseElems f (c :: tl))) =
                Option.map (fun p => (JsVal.arr p.1, p.2)) (parseElems f (c :: tl)) := by
              split
              · simp_all
              · rfl
            rw [hm, ← htl, ihe (e :: es) rest (by simp) (by omega)]
            rfl
        | obj ms =>
          cases ms with
          | nil => exact parseVal_emptyObj f rest
          | cons m ms =>
            obtain ⟨k, v'⟩ := m
            have hlen : (printVal (JsVal.obj ((k, v') :: ms))).length =
                (printMems ((k, v') :: ms)).length + 2 := by
              simp [printVal]
            have hl : printVal (JsVal.obj ((k, v') :: ms)) ++ rest =
                '\x7b' :: (printMems ((k, v') :: ms) ++ '\x7d' :: rest) := by
              simp [printVal]
            rw [hl, parseVal_objOpen]
            have hhead : ∃ tl, printMems ((k, v') :: ms) ++ '\x7d' :: rest = '"' :: tl := by
              cases ms with
              | nil =>
                exact ⟨escBody k.data ++ '"' :: (':' :: (printVal v' ++ '\x7d' :: rest)),
                  by simp [printMems, escString]⟩
              | cons m2 ms2 =>
                exact ⟨escBody k.data ++ '"' ::
                  (':' :: (printVal v' ++ ',' :: (printMems (m2 :: ms2) ++ '\x7d' :: rest))),
                  by simp [printMems, escString]⟩
            obtain ⟨tl, htl⟩ := hhead
            rw [htl, skipWs_cons _ _ (by decide)]
            have hm : (match '"' :: tl with
                | '\x7d' :: rest2 => some (JsVal.obj [], rest2)
                | _ => Option.map (fun p => (JsVal.obj p.1, p.2))
                    (parseMems f ('"' :: tl))) =
                Option.map (fun p => (JsVal.obj p.1, p.2)) (parseMems f ('"' :: tl)) := rfl
            rw [hm, ← htl, ihm ((k, v') :: ms) rest (by simp) (by omega)]
            rfl
      · intro es rest hne hf
        match es with
        | [] => exact absurd rfl hne
        | [e] =>
          have hlen : (printElems [e]).length = (printVal e).length := by
            simp [printElems]
          have hl : printElems [e] ++ ']' :: rest = printVal e ++ ']' :: rest := by
            simp [printElems]
          rw [hl]
          simp only [parseElems,
            ihv e (']' :: rest) (by omega) (head_not_digit ']' (by decide) rest)]
          rfl
        | e :: e2 :: es2 =>
          have hlen : (printElems (e :: e2 :: es2)).length =
              (printVal e).length + 1 + (printElems (e2 :: es2)).length := by
            simp [printElems]
            omega
          have hl : printElems (e :: e2 :: es2) ++ ']' :: rest =
              printVal e ++ (',' :: (printElems (e2 :: es2) ++ ']' :: rest)) := by
            simp [printElems]
          rw [hl]
          simp only [parseElems,
            ihv e (',' :: (printElems (e2 :: es2) ++ ']' :: rest)) (by omega)
              (head_not_digit ',' (by decide) _)]
          rw [skipWs_cons _ _ (by decide)]
          simp only [ihe (e2 :: es2) rest (by simp) (by omega)]
          rfl
      · intro ms rest hne hf
        match ms with
        | [] => exact absurd rfl hne
        | [(k, v')] =>
          have hlen : (printMems [(k, v')]).length =
              (escString k).length + 1 + (printVal v').length := by
            simp [printMems]
            omega
          have hl : printMems [(k, v')] ++ '\x7d' :: rest =
              '"' :: (escBody k.data ++ '"' :: (':' :: (printVal v' ++ '\x7d' :: rest))) := by
            simp [printMems, escString]
          rw [hl]
          simp only [parseMems]
          rw [skipWs_cons _ _ (by decide)]
          simp only [parseStrBody_escBody]
          rw [skipWs_cons _ _ (by decide)]
          simp only [ihv v' ('\x7d' :: rest) (by omega) (head_not_digit '\x7d' (by decide) rest)]
          rw [skipWs_cons _ _ (by decide)]
          rfl
        | (k, v') :: m2 :: ms2 =>
          have hlen : (printMems ((k, v') :: m2 :: ms2)).length =
              (escString k).length + 1 + (printVal v').length + 1 +
                (printMems (m2 :: ms2)).length := by
            simp [printMems]
            omega
          have hl : printMems ((k, v') :: m2 :: ms2) ++ '\x7d' :: rest =
              '"' :: (escBody k.data ++ '"' ::
                (':' :: (printVal v' ++ ',' :: (printMems (m2 :: ms2) ++ '\x7d' :: rest)))) := by
            simp [printMems, escString]
          rw [hl]
          simp only [parseMems]
          rw [skipWs_cons _ _ (by decide)]
          simp only [parseStrBody_escBody]
          rw [skipWs_cons _ _ (by decide)]
          simp only [ihv v' (',' :: (printMems (m2 :: ms2) ++ '\x7d' :: rest)) (by omega)
            (head_not_digit ',' (by decide) _)]
          rw [skipWs_cons _ _ (by decide)]
          simp only [ihm (m2 :: ms2) rest (by simp) (by omega)]
          rfl

/-- Helper: date stripping over a list is a map. -/
theorem stripElems_map (l : List JsVal) : stripElems l = l.map stripDates := by
  induction l with
  | nil => rfl
  | cons v vs ih => rw [stripElems, List.map_cons, ih]

/-- Helper: stripping the dates from the in-memory value of a task yields
exactly its persisted image. -/
theorem strip_todoToJsVal (t : Todo) : stripDates (todoToJsVal t) = persistedTodoVal t := by
  cases ht : t.dueDate <;>
    simp [todoToJsVal, persistedTodoVal, stripDates, stripMems, stripElems, ht]

/-- Helper: `JSON.parse` of `JSON.stringify` output succeeds and returns
the value with every `Date` replaced by its ISO string. -/
theorem jsonParse_stringify (v : JsVal) : jsonParse (jsonStringify v) = some (stripDates v) := by
  have hp := (parse_print_ok (2 * (printVal v).length + 2)).1 v [] (by omega)
    (fun c cs h => absurd h (by simp))
  rw [List.append_nil] at hp
  have hdata : (jsonStringify v).data = printVal v := rfl
  have hlen : (jsonStringify v).length = (printVal v).length := rfl
  rw [jsonParse, hdata, hlen, hp]
  rfl

/-- C3 amended: serializing the collection to the persisted tasks value
and deserializing it reproduces the tasks with the same ids, field values
and order except `createdAt`: each task comes back as its persisted image,
identical to its in-memory value except that the `createdAt` `Date` has
been serialized through `toJSON` to its ISO-8601 string and no reviver
turns it back into a `Date`. -/
theorem C3_roundtrip_amended (todos : List Todo) :
    jsonParse (serializeTodos todos) =
      some (JsVal.arr (todos.map persistedTodoVal)) ∧
    ∀ t : Todo, stripDates (todoToJsVal t) = persistedTodoVal t := by
  refine ⟨?_, strip_todoToJsVal⟩
  rw [serializeTodos, jsonParse_stringify]
  have harr : stripDates (JsVal.arr (todos.map todoToJsVal)) =
      JsVal.arr (todos.map persistedTodoVal) := by
    rw [show stripDates (JsVal.arr (todos.map todoToJsVal)) =
      JsVal.arr (stripElems (todos.map todoToJsVal)) from rfl]
    rw [stripElems_map, List.map_map]
    have hcomp : stripDates ∘ todoToJsVal = persistedTodoVal := funext strip_todoToJsVal
    rw [hcomp]
  rw [harr]

/-- C3 counterexample: for the one-task collection holding a freshly
created task the stringify/parse round trip does not reproduce the
in-memory collection: the parsed task's `createdAt` is the ISO string of
the `Date`, not the `Date` value the task carries in memory. -/
theorem C3_counterexample :
    jsonParse (serializeTodos [exDone]) = some (JsVal.arr [persistedTodoVal exDone]) ∧
    persistedTodoVal exDone ≠ todoToJsVal exDone ∧
    jsonParse (serializeTodos [exDone]) ≠ some (JsVal.arr [todoToJsVal exDone]) := by
  have h1 : jsonParse (serializeTodos [exDone]) =
      some (JsVal.arr [persistedTodoVal exDone]) := by
    rw [serializeTodos, jsonParse_stringify]
    have h : stripDates (JsVal.arr (List.map todoToJsVal [exDone])) =
        JsVal.arr [persistedTodoVal exDone] := by
      rw [show List.map todoToJsVal [exDone] = [todoToJsVal exDone] from rfl]
      rw [show stripDates (JsVal.arr [todoToJsVal exDone]) =
        JsVal.arr (stripElems [todoToJsVal exDone]) from rfl]
      rw [stripElems, stripElems, strip_todoToJsVal]
    rw [h]
  have h2 : persistedTodoVal exDone ≠ todoToJsVal exDone := by
    simp [persistedTodoVal, todoToJsVal, exDone]
  refine ⟨h1, h2, ?_⟩
  intro h
  rw [h1] at h
  simp only [Option.some.injEq, JsVal.arr.injEq, List.cons.injEq, and_true] at h
  exact h2 h
